import Mathlib

/-
Shallow embedding of the CoT repository (src/llm.py and src/llm2.py):
chain-of-thought orchestration over a text-completion service.

Modelling conventions:
- Calls to the external completion service (ollama.generate / ollama.chat)
  are oracles of type `String → Except String String`; `.error` models the
  call raising a Python exception, `.ok` the returned (or fully streamed
  and concatenated) text.
- Python floats are modelled as rationals `ℚ`.
- Python functions that can raise are embedded with `Except`/`Option`
  results; an uncaught exception is an `.error`/`none` result.
- Python `str` values are Lean `String`s; the Python string primitives the
  source uses (`split`, `strip`, `in`, `int()`, `float()`, `str()`) are
  modelled explicitly below, on the character lists of the strings.
-/

/-! ### Python string primitives used by the source -/

/-- Characters removed by Python `str.strip()` (ASCII whitespace). -/
def pySpaceCh (c : Char) : Bool :=
  c == ' ' || c == '\t' || c == '\n' || c == '\r' || c == '\x0b' || c == '\x0c'

/-- Model of Python `s.strip()`: drop whitespace at both ends. -/
def pyStrip (s : String) : String :=
  List.asString (((s.data.dropWhile pySpaceCh).reverse.dropWhile pySpaceCh).reverse)

/-- Bool test: the second list starts with the first one (used by the
substring scan of `split` and `in`). -/
def leadsWith : List Char → List Char → Bool
  | [], _ => true
  | _ :: _, [] => false
  | a :: as, b :: bs => a == b && leadsWith as bs

/-- Bool test: `pat` occurs contiguously in the list (model of Python
`pat in s`). -/
def occursIn (pat : List Char) : List Char → Bool
  | [] => pat.isEmpty
  | c :: rest => leadsWith pat (c :: rest) || occursIn pat rest

/-- Model of Python `pat in s` on strings. -/
def strContains (s pat : String) : Bool :=
  occursIn pat.data s.data

/-- Worker for Python `s.split(sep)` with a non-empty separator: scan for
the leftmost separator occurrence, cut, continue after it.  `fuel` bounds
the recursion (any `fuel > length of the scanned list` gives the split). -/
def pySplitGo (sep : List Char) : ℕ → List Char → List Char → List (List Char)
  | 0, s, acc => [acc.reverse ++ s]
  | _ + 1, [], acc => [acc.reverse]
  | fuel + 1, c :: rest, acc =>
    if !sep.isEmpty && leadsWith sep (c :: rest) then
      acc.reverse :: pySplitGo sep fuel (List.drop (sep.length - 1) rest) []
    else
      pySplitGo sep fuel rest (c :: acc)

/-- Model of Python `s.split(sep)` (the source only calls it with the
non-empty separators `"STEPS:"`, `"\n"` and `"_"`). -/
def pySplit (s sep : String) : List String :=
  (pySplitGo sep.data (s.data.length + 1) s.data []).map List.asString

/-! ### Python numeral printing and parsing -/

/-- Decimal digit character for a digit value (values above nine are
clamped to the last branch; they never occur on the calls we make). -/
def digitChar (d : ℕ) : Char :=
  if d = 0 then '0' else if d = 1 then '1' else if d = 2 then '2'
  else if d = 3 then '3' else if d = 4 then '4' else if d = 5 then '5'
  else if d = 6 then '6' else if d = 7 then '7' else if d = 8 then '8'
  else '9'

/-- Digit value of a character, `none` for non-digits. -/
def digitVal (c : Char) : Option ℕ :=
  if c == '0' then some 0 else if c == '1' then some 1 else if c == '2' then some 2
  else if c == '3' then some 3 else if c == '4' then some 4 else if c == '5' then some 5
  else if c == '6' then some 6 else if c == '7' then some 7 else if c == '8' then some 8
  else if c == '9' then some 9 else none

/-- Parse a non-empty run of decimal digits left to right with an
accumulator; `none` as soon as a non-digit is met. -/
def parseDigitsAcc : ℕ → List Char → Option ℕ
  | acc, [] => some acc
  | acc, c :: cs =>
    match digitVal c with
    | none => none
    | some d => parseDigitsAcc (10 * acc + d) cs

/-- Decimal digits of a natural number, most significant first; `fuel`
bounds the recursion (any `fuel ≥ n` is enough). -/
def natToDigits : ℕ → ℕ → List Char
  | 0, n => [digitChar n]
  | fuel + 1, n =>
    if n < 10 then [digitChar n]
    else natToDigits fuel (n / 10) ++ [digitChar (n % 10)]

/-- Model of Python `str(n)` for a natural number. -/
def natStr (n : ℕ) : String :=
  List.asString (natToDigits n n)

/-- Model of Python `str(z)` for an integer. -/
def intStr (z : ℤ) : String :=
  if z < 0 then ("-") ++ natStr z.natAbs else natStr z.toNat

/-- Model of Python `int(s)` restricted to the shapes the source can feed
it: an optional sign followed by decimal digits (CPython also accepts
surrounding whitespace and `_` digit separators, which never occur here
because the parsed text is stripped first). -/
def pyInt (s : String) : Option ℤ :=
  match s.data with
  | [] => none
  | c :: cs =>
    if c == '-' then
      if cs.isEmpty then none else (parseDigitsAcc 0 cs).map (fun n => -(n : ℤ))
    else if c == '+' then
      if cs.isEmpty then none else (parseDigitsAcc 0 cs).map (fun n => (n : ℤ))
    else
      (parseDigitsAcc 0 (c :: cs)).map (fun n => (n : ℤ))

/-- Unsigned part of Python `float(s)`: decimal digits with an optional
single point, at least one digit overall. -/
def pyFloatCore (cs : List Char) : Option ℚ :=
  match pySplitGo ['.'] (cs.length + 1) cs [] with
  | [intp] =>
    if intp.isEmpty then none
    else (parseDigitsAcc 0 intp).map (fun n => (n : ℚ))
  | [intp, frac] =>
    if intp.isEmpty && frac.isEmpty then none
    else
      match parseDigitsAcc 0 intp, parseDigitsAcc 0 frac with
      | some n, some f => some ((n : ℚ) + (f : ℚ) / (10 : ℚ) ^ frac.length)
      | _, _ => none
  | _ => none

/-- Model of Python `float(s)` restricted to plain decimal literals with an
optional sign (CPython additionally accepts exponents, `inf`/`nan` and
surrounding whitespace; the source feeds it the raw model response, and the
spec's examples are all plain decimals). -/
def pyFloat (s : String) : Option ℚ :=
  match s.data with
  | [] => none
  | c :: cs =>
    if c == '-' then (pyFloatCore cs).map Neg.neg
    else if c == '+' then pyFloatCore cs
    else pyFloatCore (c :: cs)

/-- Model of Python list indexing `l[i]` with an `int` index (negative
indices count from the end; out of range raises, i.e. `none`). -/
def pyIndexList {α : Type} (l : List α) (i : ℤ) : Option α :=
  if 0 ≤ i then l.get? i.toNat
  else if (-i).toNat ≤ l.length then l.get? (l.length - (-i).toNat) else none

/-- Sequence a list of fallible calls, stopping at the first error: the
observable result of `list(executor.map(f, xs))`, which re-raises the
first exception when the results are consumed. -/
def mapExcept {α β : Type} (f : α → Except String β) : List α → Except String (List β)
  | [] => .ok []
  | a :: as =>
    match f a with
    | .error e => .error e
    | .ok b =>
      match mapExcept f as with
      | .error e => .error e
      | .ok bs => .ok (b :: bs)

/-- Arithmetic mean of a list of rationals (model of `np.mean`). -/
def qMean (l : List ℚ) : ℚ :=
  l.sum / (l.length : ℚ)

/-! ### Model of src/llm.py (class EnhancedCoT) -/

/-- One entry of `EnhancedCoT.performance_history`
(appended by `monitor_performance`). -/
structure PerfRecord where
  execution_time : ℚ
  consistency_score : ℚ
deriving DecidableEq

/-- Mutable attributes of an `EnhancedCoT` instance that the orchestration
reads and writes: `temp_range` and `performance_history`. -/
structure CoTState where
  temp_range : ℚ × ℚ
  performance_history : List PerfRecord
deriving DecidableEq

/-- Model of `np.linspace(lo, hi, n)`: `n` evenly spaced values from `lo`
to `hi`, both endpoints included (for `n = 1` only `lo`). -/
def linspaceQ (lo hi : ℚ) (n : ℕ) : List ℚ :=
  if n = 0 then []
  else if n = 1 then [lo]
  else (List.range n).map (fun i : ℕ => lo + (hi - lo) * (i : ℚ) / ((n : ℚ) - 1))

/-- Prompt built by `generate_thought_branches` for each branch call. -/
def thinkPrompt (prompt : String) : String :=
  "Think step by step:\n" ++ prompt

/-- Model of `EnhancedCoT.generate_thought_branches`: one completion call
per linspace temperature via `ThreadPoolExecutor.map`; consuming the
mapped results re-raises the first exception, so the observable result is
the full list of branch texts, or the first error. -/
def generate_thought_branches (gen : String → ℚ → Except String String)
    (temp_range : ℚ × ℚ) (num_branches : ℕ) (prompt : String) :
    Except String (List String) :=
  mapExcept (fun t => gen (thinkPrompt prompt) t) (linspaceQ temp_range.1 temp_range.2 num_branches)

/-- Prompt built by `verify_consistency` for each branch rating call. -/
def ratePrompt (thought : String) : String :=
  "Rate the logical consistency of this thought from 0-1:\n" ++ thought

/-- Dictionary key built by `verify_consistency` for branch `i`
(Python `f"branch_{i}"`). -/
def branchKey (i : ℕ) : String :=
  "branch_" ++ natStr i

/-- Loop body of `EnhancedCoT.verify_consistency`, carrying the enumerate
index; the insertion-ordered dict is a key-value list. -/
def verifyFrom (scorer : String → Except String String) :
    ℕ → List String → Except String (List (String × ℚ))
  | _, [] => .ok []
  | i, thought :: rest =>
    match scorer (ratePrompt thought) with
    | .error e => .error e
    | .ok resp =>
      match pyFloat resp with
      | none => .error ("ValueError: could not convert string to float")
      | some v =>
        match verifyFrom scorer (i + 1) rest with
        | .error e => .error e
        | .ok scores => .ok ((branchKey i, v) :: scores)

/-- Model of `EnhancedCoT.verify_consistency`: rate each thought with a
completion call and parse the response via `float()`. -/
def verify_consistency (scorer : String → Except String String)
    (thoughts : List String) : Except String (List (String × ℚ)) :=
  verifyFrom scorer 0 thoughts

/-- Model of Python `max(items, key=lambda x: x[1])` run as a left fold:
the accumulator is replaced only on a strictly greater key, so the first
maximal element wins. -/
def pyMaxFold {α : Type} (f : α → ℚ) (a : α) (l : List α) : α :=
  l.foldl (fun acc x => if f acc < f x then x else acc) a

/-- Model of `EnhancedCoT.optimize_response`: take the first score-maximal
dict item, split its key on `"_"`, parse the piece at index 1 as an int
and index `thoughts` with it. -/
def optimize_response (thoughts : List String)
    (consistency_scores : List (String × ℚ)) : Except String String :=
  match consistency_scores with
  | [] => .error ("ValueError: max() arg is an empty sequence")
  | p :: rest =>
    match (pySplit (pyMaxFold (fun x => x.2) p rest).1 ("_")).get? 1 with
    | none => .error ("IndexError: list index out of range")
    | some ds =>
      match pyInt ds with
      | none => .error ("ValueError: invalid literal for int()")
      | some i =>
        match pyIndexList thoughts i with
        | none => .error ("IndexError: list index out of range")
        | some t => .ok t

/-- Model of `EnhancedCoT.monitor_performance`: append one record. -/
def monitor_performance (performance_history : List PerfRecord)
    (execution_time consistency_score : ℚ) : List PerfRecord :=
  performance_history ++ [⟨execution_time, consistency_score⟩]

/-- Model of `EnhancedCoT.dynamic_temperature_adjustment`: only when the
history holds more than 5 records, and the mean consistency score of the
last 5 is below 0.5, lower both range bounds by 0.1 with floors 0.1 / 0.3. -/
def dynamic_temperature_adjustment (performance_history : List PerfRecord)
    (temp_range : ℚ × ℚ) : ℚ × ℚ :=
  if 5 < performance_history.length then
    if qMean (((performance_history.drop (performance_history.length - 5)).map
        PerfRecord.consistency_score)) < 1 / 2 then
      (max (1 / 10) (temp_range.1 - 1 / 10), max (3 / 10) (temp_range.2 - 1 / 10))
    else temp_range
  else temp_range

/-- Body of the `try:` block of `EnhancedCoT.enhanced_cot`: generate,
score, select, then record and adapt (the recording and adapting steps are
total in-memory operations).  `execution_time` stands for the measured
`time.time() - start_time`. -/
def enhanced_cot_try (gen : String → ℚ → Except String String)
    (scorer : String → Except String String) (num_branches : ℕ)
    (execution_time : ℚ) (st : CoTState) (prompt : String) :
    Except String (String × CoTState) :=
  match generate_thought_branches gen st.temp_range num_branches prompt with
  | .error e => .error e
  | .ok thoughts =>
    match verify_consistency scorer thoughts with
    | .error e => .error e
    | .ok consistency_scores =>
      match optimize_response thoughts consistency_scores with
      | .error e => .error e
      | .ok final_response =>
        let avg_consistency := qMean (consistency_scores.map Prod.snd)
        let history := monitor_performance st.performance_history
          execution_time avg_consistency
        let tr := dynamic_temperature_adjustment history st.temp_range
        .ok (final_response, ⟨tr, history⟩)

/-- Model of `EnhancedCoT.enhanced_cot`: on any exception from the body the
`except` clause issues one bare completion call `fb` on the raw prompt; an
exception from that call is not caught and reaches the caller
(`.error` in the first component). -/
def enhanced_cot (gen : String → ℚ → Except String String)
    (scorer fb : String → Except String String) (num_branches : ℕ)
    (execution_time : ℚ) (st : CoTState) (prompt : String) :
    Except String String × CoTState :=
  match enhanced_cot_try gen scorer num_branches execution_time st prompt with
  | .ok (r, st2) => (.ok r, st2)
  | .error _ => (fb prompt, st)

/-! ### Model of src/llm2.py (class CoT) -/

/-- Instruction text sent by `CoT.analyze_complexity` (the exact content
is opaque to every claim; the oracle is quantified over). -/
def complexityPrompt (prompt : String) : String :=
  "Analyze the complexity of this query and:\n" ++
  "                1. Determine number of steps needed (1-5)\n" ++
  "                2. Break it down into clear steps\n" ++
  "                Respond in format:\n" ++
  "                STEPS: <number>\n" ++
  "                1. First step\n" ++
  "                2. Second step\n" ++
  "                etc.\n" ++
  "                Query: " ++ prompt

/-- Filter used by `analyze_complexity` on each response line:
Python `any(str(i) in s for i in range(steps_count))`. -/
def anyDigitBelow (steps_count : ℤ) (s : String) : Bool :=
  (List.range steps_count.toNat).any (fun i => strContains s (natStr i))

/-- Model of `CoT.analyze_complexity`: take the text after `"STEPS:"`,
parse its first line as the step count, then keep the response lines that
are non-blank after stripping and contain some digit `i < steps_count`
as text. -/
def analyze_complexity (chat : String → Except String String)
    (prompt : String) : Except String (ℤ × List String) :=
  match chat (complexityPrompt prompt) with
  | .error e => .error e
  | .ok response =>
    match (pySplit response ("STEPS:")).get? 1 with
    | none => .error ("IndexError: list index out of range")
    | some tail =>
      match (pySplit tail ("\n")).get? 0 with
      | none => .error ("IndexError: list index out of range")
      | some first_line =>
        match pyInt (pyStrip first_line) with
        | none => .error ("ValueError: invalid literal for int()")
        | some steps_count =>
          let steps := ((pySplit response ("\n")).filter
            (fun s => !(pyStrip s).isEmpty && anyDigitBelow steps_count s)).map pyStrip
          .ok (steps_count, steps)

/-- Context paragraph built by `CoT.generate_response` (the Python
truthiness test `if previous_response` is non-emptiness). -/
def step_context (previous_response : String) (step_num : ℕ) (total_steps : ℤ) : String :=
  if previous_response.data.isEmpty then
    "You have created a plan to respond more accurately and productively, As per the plan start elaborate the step " ++
      natStr step_num ++ "/" ++ intStr total_steps ++ " in not more than 100 words:"
  else
    "As per your plan of reponse, continue the response by refering to your previous steps:\n" ++
      previous_response ++ "\n\nNow address step " ++ natStr step_num ++ "/" ++
      intStr total_steps ++ " in NOT more than 100 words:"

/-- Message content `f"{context}\n{prompt}"` sent to the completion
service by `CoT.generate_response`. -/
def step_request (previous_response stage : String) (step_num : ℕ) (total_steps : ℤ) : String :=
  step_context previous_response step_num total_steps ++ "\n" ++ stage

/-- Header prefixed to the streamed chunks of one step. -/
def stepHeader (step_num : ℕ) (total_steps : ℤ) : String :=
  "\nStep " ++ natStr step_num ++ "/" ++ intStr total_steps ++ ":\n"

/-- Model of `CoT.generate_response`: one chat call on the constructed
request; the inner `try/except` turns any exception into the empty string
(soft failure), otherwise the header plus the concatenated chunks. -/
def generate_response (schat : String → Except String String) (stage : String)
    (step_num : ℕ) (total_steps : ℤ) (previous_response : String) : String :=
  match schat (step_request previous_response stage step_num total_steps) with
  | .error _ => ""
  | .ok resp => stepHeader step_num total_steps ++ resp

/-- Step loop of `CoT.cot_main` (`for i, stage in enumerate(stages, 1)`),
returning the accumulated `full_response` together with the request
prompt constructed for each step, in step order. -/
def cot_steps (schat : String → Except String String) (total_steps : ℤ) :
    ℕ → String → List String → String × List String
  | _, full_response, [] => (full_response, [])
  | i, full_response, stage :: rest =>
    let req := step_request full_response stage i total_steps
    let stage_resp := generate_response schat stage i total_steps full_response
    let next := cot_steps schat total_steps (i + 1) (full_response ++ stage_resp ++ "\n") rest
    (next.1, req :: next.2)

/-- Model of `CoT._save_metrics`: the whole file read/append/write attempt
is wrapped in `try/except` which prints and absorbs any exception, so the
call never raises. -/
def save_metrics (attempt : Except String Unit) : Except String Unit :=
  match attempt with
  | .ok _ => .ok ()
  | .error _ => .ok ()

/-- Model of `CoT.cot_main`.  `saveAttempt` is the outcome of the metrics
file I/O.  The outer `try/except` returns `None` on any exception of the
body; only `analyze_complexity` (and a propagated `_save_metrics` failure,
which `save_metrics` rules out) could raise there. -/
def cot_main (chat schat : String → Except String String)
    (saveAttempt : Except String Unit) (prompt : String) : Option String :=
  match analyze_complexity chat prompt with
  | .error _ => none
  | .ok (num_steps, stages) =>
    let full_response := (cot_steps schat num_steps 1 "" stages).1
    match save_metrics saveAttempt with
    | .error _ => none
    | .ok _ => some full_response

/-! ### Basic facts about the string primitives -/

/-- Round trip between `List Char` and `String`. -/
theorem data_asString (l : List Char) : (List.asString l).data = l := rfl

/-- Character list of an appended string. -/
theorem data_append_eq (s t : String) : (s ++ t).data = s.data ++ t.data :=
  String.data_append s t

/-! ### Temperature adjustment (claims C2 and C7) -/

/-- Unfolding of the adjustment when the history is short: the Python
guard is `len(performance_history) > 5`, so up to 5 records nothing
happens. -/
theorem dta_of_short (h : List PerfRecord) (tr : ℚ × ℚ) (hlen : h.length ≤ 5) :
    dynamic_temperature_adjustment h tr = tr := by
  unfold dynamic_temperature_adjustment
  rw [if_neg (by omega)]

/-- Unfolding of the adjustment when the history is long enough and the
recent mean is low. -/
theorem dta_of_low_mean (h : List PerfRecord) (tr : ℚ × ℚ) (hlen : 6 ≤ h.length)
    (hmean : qMean ((h.drop (h.length - 5)).map PerfRecord.consistency_score) < 1 / 2) :
    dynamic_temperature_adjustment h tr =
      (max (1 / 10) (tr.1 - 1 / 10), max (3 / 10) (tr.2 - 1 / 10)) := by
  unfold dynamic_temperature_adjustment
  rw [if_pos (by omega), if_pos hmean]

/-- One adjustment step preserves the range invariants. -/
theorem dta_invariant (h : List PerfRecord) (tr : ℚ × ℚ) (h1 : tr.1 ≤ tr.2)
    (h2 : 1 / 10 ≤ tr.1) (h3 : 3 / 10 ≤ tr.2) :
    (dynamic_temperature_adjustment h tr).1 ≤ (dynamic_temperature_adjustment h tr).2 ∧
      1 / 10 ≤ (dynamic_temperature_adjustment h tr).1 ∧
      3 / 10 ≤ (dynamic_temperature_adjustment h tr).2 := by
  unfold dynamic_temperature_adjustment
  split_ifs with hlen hmean
  · refine ⟨?_, le_max_left _ _, le_max_left _ _⟩
    exact max_le (le_trans (by norm_num) (le_max_left _ _))
      (le_trans (sub_le_sub_right h1 _) (le_max_right _ _))
  · exact ⟨h1, h2, h3⟩
  · exact ⟨h1, h2, h3⟩

/-- Repeated application of the adjustment, one arbitrary history snapshot
per application (the claim quantifies over every performance history). -/
def adjustIter (histories : List (List PerfRecord)) (tr : ℚ × ℚ) : ℚ × ℚ :=
  histories.foldl (fun t h => dynamic_temperature_adjustment h t) tr

/-- C2 (amended): the temperature adjustment is a no-op on every history
of at most 5 records (the Python guard is `> 5`, not `≥ 5`); on every
history of at least 6 records whose most recent 5 consistency scores have
mean below 0.5 it lowers both bounds by 0.1 with floors 0.1 / 0.3, and in
particular sends the range (0.1, 0.8) to exactly (0.1, 0.7). -/
theorem C2_temperature_adjustment_amended (h : List PerfRecord) (tr : ℚ × ℚ) :
    (h.length ≤ 5 → dynamic_temperature_adjustment h tr = tr) ∧
    (6 ≤ h.length →
      qMean ((h.drop (h.length - 5)).map PerfRecord.consistency_score) < 1 / 2 →
      dynamic_temperature_adjustment h tr =
          (max (1 / 10) (tr.1 - 1 / 10), max (3 / 10) (tr.2 - 1 / 10)) ∧
        dynamic_temperature_adjustment h (1 / 10, 8 / 10) = (1 / 10, 7 / 10)) := by
  refine ⟨fun hlen => dta_of_short h tr hlen, fun hlen hmean => ?_⟩
  refine ⟨dta_of_low_mean h tr hlen hmean, ?_⟩
  rw [dta_of_low_mean h (1 / 10, 8 / 10) hlen hmean]
  norm_num

/-- C2 (counterexample): a history of exactly 5 records, each with
consistency score 0, satisfies the claim's hypothesis ("at least 5 records
whose most recent 5 consistency scores have mean below 0.5") yet the
adjustment leaves the range (0.1, 0.8) unchanged instead of lowering it
to (0.1, 0.7). -/
theorem C2_counterexample :
    (List.replicate 5 (⟨1, 0⟩ : PerfRecord)).length = 5 ∧
    qMean (((List.replicate 5 (⟨1, 0⟩ : PerfRecord)).drop
        ((List.replicate 5 (⟨1, 0⟩ : PerfRecord)).length - 5)).map
        PerfRecord.consistency_score) < 1 / 2 ∧
    dynamic_temperature_adjustment (List.replicate 5 ⟨1, 0⟩) (1 / 10, 8 / 10) =
      (1 / 10, 8 / 10) ∧
    ((1 : ℚ) / 10, (8 : ℚ) / 10) ≠ ((1 : ℚ) / 10, (7 : ℚ) / 10) := by
  refine ⟨rfl, by norm_num [qMean, List.replicate], ?_, by norm_num⟩
  norm_num +decide [dynamic_temperature_adjustment, qMean, List.replicate]

/-- C2 (witness): the amended statement applied to a concrete history of
6 low-scoring records and the concrete range (0.1, 0.8). -/
theorem C2_witness :
    dynamic_temperature_adjustment (List.replicate 6 ⟨1, 0⟩) (1 / 10, 8 / 10) =
      (1 / 10, 7 / 10) :=
  ((C2_temperature_adjustment_amended (List.replicate 6 ⟨1, 0⟩) (1 / 10, 8 / 10)).2
    (by norm_num) (by norm_num [qMean, List.replicate])).2

/-- C7: from any range with low ≤ high, low ≥ 0.1 and high ≥ 0.3, any
number of adjustment applications over arbitrary performance histories
keeps low ≤ high, low ≥ 0.1 and high ≥ 0.3. -/
theorem C7_range_invariants (histories : List (List PerfRecord)) (tr : ℚ × ℚ)
    (h1 : tr.1 ≤ tr.2) (h2 : 1 / 10 ≤ tr.1) (h3 : 3 / 10 ≤ tr.2) :
    (adjustIter histories tr).1 ≤ (adjustIter histories tr).2 ∧
      1 / 10 ≤ (adjustIter histories tr).1 ∧
      3 / 10 ≤ (adjustIter histories tr).2 := by
  induction histories generalizing tr with
  | nil => exact ⟨h1, h2, h3⟩
  | cons h hs ih =>
    have step := dta_invariant h tr h1 h2 h3
    exact ih (dynamic_temperature_adjustment h tr) step.1 step.2.1 step.2.2

/-- C7 (witness): the invariant theorem applied at the concrete range
(0.1, 0.8) through two concrete adjustment rounds. -/
theorem C7_witness :
    (adjustIter [List.replicate 6 ⟨1, 0⟩, List.replicate 7 ⟨1, 0⟩] (1 / 10, 8 / 10)).1 ≤
        (adjustIter [List.replicate 6 ⟨1, 0⟩, List.replicate 7 ⟨1, 0⟩] (1 / 10, 8 / 10)).2 ∧
      1 / 10 ≤ (adjustIter [List.replicate 6 ⟨1, 0⟩, List.replicate 7 ⟨1, 0⟩] (1 / 10, 8 / 10)).1 ∧
      3 / 10 ≤ (adjustIter [List.replicate 6 ⟨1, 0⟩, List.replicate 7 ⟨1, 0⟩] (1 / 10, 8 / 10)).2 :=
  C7_range_invariants [List.replicate 6 ⟨1, 0⟩, List.replicate 7 ⟨1, 0⟩] (1 / 10, 8 / 10)
    (by norm_num) (by norm_num) (by norm_num)

/-! ### Branch generation (claim C1) -/

/-- Length of a linspace. -/
theorem linspaceQ_length (lo hi : ℚ) (n : ℕ) : (linspaceQ lo hi n).length = n := by
  unfold linspaceQ
  split_ifs with h0 h1
  · simp [h0]
  · simp [h1]
  · rw [List.length_map, List.length_range]

/-- When every call succeeds, the sequenced map succeeds with one result
per input. -/
theorem mapExcept_ok_of_forall {α β : Type} (f : α → Except String β) (l : List α)
    (h : ∀ a ∈ l, ∃ b, f a = .ok b) :
    ∃ bs, mapExcept f l = .ok bs ∧ bs.length = l.length := by
  induction l with
  | nil => exact ⟨[], rfl, rfl⟩
  | cons x xs ih =>
    obtain ⟨b, hb⟩ := h x (List.mem_cons_self x xs)
    obtain ⟨bs, hbs, hlen⟩ := ih (fun a ha => h a (List.mem_cons_of_mem x ha))
    refine ⟨b :: bs, ?_, by simp [hlen]⟩
    simp only [mapExcept, hb, hbs]

/-- When some call fails, the sequenced map fails. -/
theorem mapExcept_error_of_exists {α β : Type} (f : α → Except String β) (l : List α)
    (h : ∃ a ∈ l, ∃ e, f a = .error e) :
    ∃ e, mapExcept f l = .error e := by
  induction l with
  | nil => simp at h
  | cons x xs ih =>
    obtain ⟨a, ha, e, he⟩ := h
    match hx : f x with
    | .error e2 => exact ⟨e2, by simp only [mapExcept, hx]⟩
    | .ok b =>
      have hax : a ≠ x := fun hax => by rw [hax, hx] at he; exact Except.noConfusion he
      obtain ⟨e3, he3⟩ := ih ⟨a, (List.mem_cons.1 ha).resolve_left hax, e, he⟩
      exact ⟨e3, by simp only [mapExcept, hx, he3]⟩

/-- C1 (amended): for every branch count N, if all N underlying completion
calls (one per linspace temperature) succeed, `generate_thought_branches`
returns exactly N branch texts; if any underlying call fails, the whole
call fails with that propagated error — failed branches are not dropped
and no `NoViableBranch` value exists in the code. -/
theorem C1_branch_generation_amended (gen : String → ℚ → Except String String)
    (tr : ℚ × ℚ) (n : ℕ) (p : String) :
    ((∀ t ∈ linspaceQ tr.1 tr.2 n, ∃ s, gen (thinkPrompt p) t = .ok s) →
      ∃ thoughts, generate_thought_branches gen tr n p = .ok thoughts ∧
        thoughts.length = n) ∧
    ((∃ t ∈ linspaceQ tr.1 tr.2 n, ∃ e, gen (thinkPrompt p) t = .error e) →
      ∃ e, generate_thought_branches gen tr n p = .error e) := by
  constructor
  · intro h
    obtain ⟨bs, hbs, hlen⟩ := mapExcept_ok_of_forall (fun t => gen (thinkPrompt p) t)
      (linspaceQ tr.1 tr.2 n) h
    exact ⟨bs, hbs, by rw [hlen, linspaceQ_length]⟩
  · intro h
    exact mapExcept_error_of_exists (fun t => gen (thinkPrompt p) t)
      (linspaceQ tr.1 tr.2 n) h

/-- C1 (counterexample): with 2 branches over the range (0.1, 0.8) the
branch temperatures are 0.1 and 0.8; a completion oracle that succeeds at
temperature 0.1 and fails at 0.8 gives one successful underlying call, yet
`generate_thought_branches` does not return a 1-element branch list — the
error propagates. -/
theorem C1_counterexample :
    (1 / 10 : ℚ) ∈ linspaceQ (1 / 10) (8 / 10) 2 ∧
    (fun (_ : String) (t : ℚ) => if t = 1 / 10 then Except.ok ("ok") else Except.error ("boom"))
      (thinkPrompt ("q")) (1 / 10) = .ok ("ok") ∧
    generate_thought_branches
      (fun _ t => if t = 1 / 10 then .ok ("ok") else .error ("boom"))
      (1 / 10, 8 / 10) 2 "q" = .error ("boom") := by
  refine ⟨?_, by norm_num, ?_⟩
  · have : linspaceQ (1 / 10) (8 / 10) 2 = [1 / 10, 8 / 10] := by
      norm_num [linspaceQ, List.range_succ]
    rw [this]
    simp
  · norm_num [generate_thought_branches, mapExcept, linspaceQ, List.range_succ]

/-- C1 (witness): the amended statement applied to an always-succeeding
oracle with 3 branches. -/
theorem C1_witness :
    ∃ thoughts,
      generate_thought_branches (fun _ _ => .ok ("y")) (1 / 10, 8 / 10) 3 "q" =
        .ok thoughts ∧ thoughts.length = 3 :=
  (C1_branch_generation_amended (fun _ _ => .ok ("y")) (1 / 10, 8 / 10) 3 "q").1
    (fun _ _ => ⟨"y", rfl⟩)

/-! ### Orchestrator fallback and recording failures (claims C3 and C4) -/

/-- C3 (amended): in `EnhancedCoT.enhanced_cot`, when the primary strategy
fails the `except` clause issues exactly one direct completion call on the
raw original prompt and returns whatever it produces — its text on
success, and on failure that exception propagates to the caller unhandled
(the result is literally the fallback call's outcome).  In `CoT.cot_main`
a primary failure yields the explicit no-result `None` and no fallback
completion call exists. -/
theorem C3_fallback_amended :
    (∀ (gen : String → ℚ → Except String String)
      (scorer fb : String → Except String String) (n : ℕ) (dt : ℚ)
      (st : CoTState) (p : String),
      (∃ e, enhanced_cot_try gen scorer n dt st p = .error e) →
      enhanced_cot gen scorer fb n dt st p = (fb p, st)) ∧
    (∀ (chat schat : String → Except String String)
      (save : Except String Unit) (p : String),
      (∃ e, analyze_complexity chat p = .error e) →
      cot_main chat schat save p = none) := by
  constructor
  · intro gen scorer fb n dt st p h
    obtain ⟨e, he⟩ := h
    unfold enhanced_cot
    rw [he]
  · intro chat schat save p h
    obtain ⟨e, he⟩ := h
    unfold cot_main
    rw [he]

/-- C3 (counterexample): when the primary strategy and the fallback call
both fail, `enhanced_cot` does not yield a no-result signal — the fallback
call's exception reaches the caller as an unhandled error. -/
theorem C3_counterexample :
    enhanced_cot (fun _ _ => .error ("down")) (fun _ => .ok ("sc"))
      (fun _ => .error ("down2")) 3 1 ⟨(1 / 10, 8 / 10), []⟩ "q" =
      (.error ("down2"), ⟨(1 / 10, 8 / 10), []⟩) := by
  norm_num +decide [enhanced_cot, enhanced_cot_try, generate_thought_branches,
    mapExcept, linspaceQ, List.range_succ]

/-- C3 (witness): the amended statement at a concrete failing primary with
a succeeding fallback, and at a concrete failing complexity analysis. -/
theorem C3_witness :
    enhanced_cot (fun _ _ => .error ("down")) (fun _ => .ok ("sc"))
        (fun _ => .ok ("fallback")) 3 1 ⟨(1 / 10, 8 / 10), []⟩ "q" =
      (.ok ("fallback"), ⟨(1 / 10, 8 / 10), []⟩) ∧
    cot_main (fun _ => .error ("no service")) (fun _ => .ok ("X")) (.ok ()) "q" = none :=
  ⟨C3_fallback_amended.1 (fun _ _ => .error ("down")) (fun _ => .ok ("sc"))
      (fun _ => .ok ("fallback")) 3 1 ⟨(1 / 10, 8 / 10), []⟩ "q" ⟨"down", rfl⟩,
    C3_fallback_amended.2 (fun _ => .error ("no service")) (fun _ => .ok ("X"))
      (.ok ()) "q" ⟨"no service", rfl⟩⟩

/-- C4: failures after the primary result is computed never trigger the
fallback path.  In `CoT.cot_main` the metrics-save outcome (succeed or
raise) never changes the returned result, because `_save_metrics` absorbs
its own exceptions; in `EnhancedCoT.enhanced_cot`, once the try body has
produced a selected result, that result is returned unchanged — the
recording and adapting steps are total in-memory operations inside the
body and cannot divert to the except clause. -/
theorem C4_recording_never_falls_back :
    (∀ (chat schat : String → Except String String) (p : String)
      (a b : Except String Unit),
      cot_main chat schat a p = cot_main chat schat b p) ∧
    (∀ (gen : String → ℚ → Except String String)
      (scorer fb : String → Except String String) (n : ℕ) (dt : ℚ)
      (st : CoTState) (p : String) (r : String) (st2 : CoTState),
      enhanced_cot_try gen scorer n dt st p = .ok (r, st2) →
      enhanced_cot gen scorer fb n dt st p = (.ok r, st2)) := by
  constructor
  · intro chat schat p a b
    unfold cot_main
    cases analyze_complexity chat p with
    | error e => rfl
    | ok v => cases a <;> cases b <;> rfl
  · intro gen scorer fb n dt st p r st2 h
    unfold enhanced_cot
    rw [h]

/-- C4 (witness): a concrete run where the save attempt fails yet
`cot_main` returns the same result as with a succeeding save, and a
concrete successful `enhanced_cot` run returning the branch selected
before recording. -/
theorem C4_witness :
    cot_main (fun _ => .ok ("STEPS: 2\n1. a\n2. b")) (fun _ => .ok ("X"))
        (.error ("disk full")) "q" =
      cot_main (fun _ => .ok ("STEPS: 2\n1. a\n2. b")) (fun _ => .ok ("X"))
        (.ok ()) "q" ∧
    enhanced_cot (fun _ _ => .ok ("T")) (fun _ => .ok ("0.9")) (fun _ => .ok ("F"))
        1 2 ⟨(1 / 10, 8 / 10), []⟩ "q" =
      (.ok ("T"), ⟨(1 / 10, 8 / 10), [⟨2, 9 / 10⟩]⟩) :=
  ⟨C4_recording_never_falls_back.1 (fun _ => .ok ("STEPS: 2\n1. a\n2. b"))
      (fun _ => .ok ("X")) "q" (.error ("disk full")) (.ok ()),
    C4_recording_never_falls_back.2 (fun _ _ => .ok ("T")) (fun _ => .ok ("0.9"))
      (fun _ => .ok ("F")) 1 2 ⟨(1 / 10, 8 / 10), []⟩ "q" "T"
      ⟨(1 / 10, 8 / 10), [⟨2, 9 / 10⟩]⟩
      (by norm_num +decide [enhanced_cot_try, generate_thought_branches, mapExcept,
        linspaceQ, List.range_succ, verify_consistency, verifyFrom, ratePrompt,
        pyFloat, pyFloatCore, pySplitGo, leadsWith, parseDigitsAcc, digitVal,
        optimize_response, pyMaxFold, branchKey, natStr, natToDigits, digitChar,
        pySplit, pyInt, pyIndexList, data_asString, qMean, monitor_performance,
        dynamic_temperature_adjustment])⟩

/-! ### Complexity planner (claim C5) -/

/-- C5 (code behavior at the claim's input): on the response
`"STEPS: 3\n1. a\n2. b\n3. c"` the planner parses the step count 3 but
returns only the two steps `["1. a", "2. b"]`: the line filter
`any(str(i) in s for i in range(steps_count))` tests for the digits
0..steps_count-1, so the line `"3. c"` never matches and is dropped.
A response without the `STEPS:` token raises (IndexError), i.e. fails. -/
theorem C5_planner_drops_last_step :
    analyze_complexity (fun _ => .ok ("STEPS: 3\n1. a\n2. b\n3. c")) "q" =
      .ok (3, ["1. a", "2. b"]) ∧
    (∃ e, analyze_complexity (fun _ => .ok ("no steps header here")) "q" = .error e) :=
  ⟨rfl, ⟨"IndexError: list index out of range", rfl⟩⟩

/-! ### Step chaining context (claim C9) -/

/-- An empty pattern occurs in every list. -/
theorem occursIn_nil (l : List Char) : occursIn [] l = true := by
  cases l <;> rfl

/-- A list starts with itself followed by anything. -/
theorem leadsWith_same (pat rest : List Char) : leadsWith pat (pat ++ rest) = true := by
  induction pat with
  | nil => rfl
  | cons c cs ih => simp [leadsWith, ih]

/-- A pattern occurs in any list that embeds it contiguously. -/
theorem occursIn_embed (pat xs rest : List Char) :
    occursIn pat (xs ++ (pat ++ rest)) = true := by
  induction xs with
  | nil =>
    cases pat with
    | nil => exact occursIn_nil rest
    | cons p ps =>
      have h := leadsWith_same (p :: ps) rest
      simp only [List.cons_append] at h
      simp [occursIn, h]
  | cons x xs ih => simp [occursIn, ih]

/-- C9: in the step loop of `cot_main`, for every plan with at least two
steps the request prompt constructed for step 2 contains step 1's full
produced output text verbatim as a substring (the accumulated
`full_response`, in which step 1's output is embedded unsummarized, is
spliced into the step-2 context). -/
theorem C9_step2_prompt_contains_step1 (schat : String → Except String String)
    (s1 s2 : String) (rest : List String) (total : ℤ) :
    ∃ req,
      ((cot_steps schat total 1 "" (s1 :: s2 :: rest)).2).get? 1 = some req ∧
        strContains req (generate_response schat s1 1 total ("")) = true := by
  refine ⟨step_request ("" ++ generate_response schat s1 1 total ("") ++ "\n") s2 2 total,
    ?_, ?_⟩
  · simp [cot_steps]
  · have hdata : ("" ++ generate_response schat s1 1 total ("") ++ "\n").data =
        (generate_response schat s1 1 total ("")).data ++ ['\n'] := by
      simp [data_append_eq]
    have hne : (("" ++ generate_response schat s1 1 total ("") ++ "\n").data).isEmpty = false := by
      rw [hdata]
      cases (generate_response schat s1 1 total ("")).data <;> rfl
    unfold strContains step_request step_context
    rw [hne]
    simp only [Bool.false_eq_true, if_false, data_append_eq, hdata, List.append_assoc,
      List.nil_append]
    exact occursIn_embed _ _ _

/-! ### Consistency scoring (claims C8, C6, C10) -/

/-- Score mapping whose keys are exactly `branch_i` for consecutive
indices starting at `i` — the shape `verify_consistency` produces, with
one given value per branch. -/
def mkScoresFrom : ℕ → List ℚ → List (String × ℚ)
  | _, [] => []
  | i, q :: qs => (branchKey i, q) :: mkScoresFrom (i + 1) qs

/-- With every rating call returning text, the scoring loop fails exactly
when some response fails to parse as a float. -/
theorem verifyFrom_error_iff (resp : String → String) (i : ℕ) (ts : List String) :
    (∃ e, verifyFrom (fun s => .ok (resp s)) i ts = .error e) ↔
      (∃ t ∈ ts, pyFloat (resp (ratePrompt t)) = none) := by
  induction ts generalizing i with
  | nil => simp [verifyFrom]
  | cons t rest ih =>
    cases h : pyFloat (resp (ratePrompt t)) with
    | none =>
      simp only [verifyFrom, h]
      constructor
      · intro _
        exact ⟨t, List.mem_cons_self t rest, h⟩
      · intro _
        exact ⟨"ValueError: could not convert string to float", rfl⟩
    | some v =>
      simp only [verifyFrom, h]
      constructor
      · intro he
        obtain ⟨e, he⟩ := he
        cases hr : verifyFrom (fun s => .ok (resp s)) (i + 1) rest with
        | error e2 =>
          obtain ⟨t2, ht2, hp⟩ := (ih (i + 1)).1 ⟨e2, hr⟩
          exact ⟨t2, List.mem_cons_of_mem t ht2, hp⟩
        | ok l => rw [hr] at he; exact Except.noConfusion he
      · intro hex
        obtain ⟨t2, ht2, hp⟩ := hex
        have ht2r : t2 ∈ rest := by
          rcases List.mem_cons.1 ht2 with h1 | h1
          · rw [h1] at hp; rw [hp] at h; exact Option.noConfusion h
          · exact h1
        obtain ⟨e, he⟩ := (ih (i + 1)).2 ⟨t2, ht2r, hp⟩
        exact ⟨e, by rw [he]⟩

/-- With every rating call returning parseable text, the scoring loop
returns exactly the `branch_i`-keyed list of parsed values. -/
theorem verifyFrom_ok (resp : String → String) (i : ℕ) (ts : List String)
    (h : ∀ t ∈ ts, pyFloat (resp (ratePrompt t)) ≠ none) :
    verifyFrom (fun s => .ok (resp s)) i ts =
      .ok (mkScoresFrom i (ts.map (fun t => (pyFloat (resp (ratePrompt t))).getD 0))) := by
  induction ts generalizing i with
  | nil => rfl
  | cons t rest ih =>
    cases hp : pyFloat (resp (ratePrompt t)) with
    | none => exact absurd hp (h t (List.mem_cons_self t rest))
    | some v =>
      have hrest := ih (i + 1) (fun t2 ht2 => h t2 (List.mem_cons_of_mem t ht2))
      simp only [verifyFrom, hp, hrest, List.map_cons, mkScoresFrom]
      rfl

/-- C8 (amended): with every rating call returning a response, the
consistency-scoring step fails — propagating the parse error rather than
substituting a default — exactly when some response cannot be parsed as a
number; the parsed magnitude is not range-checked, and when every response
parses, each branch gets its parsed value attached under its
`branch_i` key. -/
theorem C8_score_parse_amended (resp : String → String) (thoughts : List String) :
    ((∃ e, verify_consistency (fun s => .ok (resp s)) thoughts = .error e) ↔
      (∃ t ∈ thoughts, pyFloat (resp (ratePrompt t)) = none)) ∧
    ((∀ t ∈ thoughts, pyFloat (resp (ratePrompt t)) ≠ none) →
      verify_consistency (fun s => .ok (resp s)) thoughts =
        .ok (mkScoresFrom 0
          (thoughts.map (fun t => (pyFloat (resp (ratePrompt t))).getD 0)))) :=
  ⟨verifyFrom_error_iff resp 0 thoughts, verifyFrom_ok resp 0 thoughts⟩

/-- C8 (counterexample): the response `"2.5"` is not a number in the range
0–1, yet the scoring step does not fail on it — the out-of-range value 2.5
is parsed and attached as the branch's consistency score. -/
theorem C8_counterexample :
    verify_consistency (fun _ => .ok ("2.5")) ["t"] = .ok [("branch_0", 5 / 2)] ∧
    ¬((5 : ℚ) / 2 ≤ 1) := by
  constructor
  · norm_num +decide [verify_consistency, verifyFrom, pyFloat, pyFloatCore, pySplitGo,
      parseDigitsAcc, digitVal, leadsWith, branchKey, natStr, natToDigits, digitChar]
  · norm_num

/-- C8 (witness): the amended statement applied to a concrete rating
response `"0.7"`, which parses and is attached under `branch_0`. -/
theorem C8_witness :
    verify_consistency (fun s => .ok ((fun _ => "0.7") s)) ["a"] =
      .ok [("branch_0", 7 / 10)] := by
  have h := (C8_score_parse_amended (fun _ => "0.7") ["a"]).2
    (by
      intro t ht
      norm_num +decide [pyFloat, pyFloatCore, pySplitGo, parseDigitsAcc, digitVal, leadsWith])
  exact h.trans (by
    norm_num +decide [mkScoresFrom, branchKey, natStr, natToDigits, digitChar, pyFloat,
      pyFloatCore, pySplitGo, parseDigitsAcc, digitVal, leadsWith])


/-- Every element's key is at most the fold's key: Python `max` returns a
maximal element. -/
theorem pyMaxFold_le {α : Type} (f : α → ℚ) (l : List α) (a : α) :
    ∀ y ∈ a :: l, f y ≤ f (pyMaxFold f a l) := by
  induction l generalizing a with
  | nil =>
    intro y hy
    rcases List.mem_cons.1 hy with h1 | h1
    · rw [h1]; exact le_refl (f a)
    · simp at h1
  | cons x xs ih =>
    intro y hy
    have hfold : pyMaxFold f a (x :: xs) = pyMaxFold f (if f a < f x then x else a) xs := rfl
    have ha : f a ≤ f (if f a < f x then x else a) := by
      by_cases h : f a < f x
      · rw [if_pos h]; exact le_of_lt h
      · rw [if_neg h]
    have hx : f x ≤ f (if f a < f x then x else a) := by
      by_cases h : f a < f x
      · rw [if_pos h]
      · rw [if_neg h]; exact not_lt.1 h
    have hacc : f (if f a < f x then x else a) ≤
        f (pyMaxFold f (if f a < f x then x else a) xs) :=
      ih (if f a < f x then x else a) _ (List.mem_cons_self _ _)
    rw [hfold]
    rcases List.mem_cons.1 hy with h1 | h1
    · rw [h1]; exact le_trans ha hacc
    · rcases List.mem_cons.1 h1 with h2 | h2
      · rw [h2]; exact le_trans hx hacc
      · exact ih (if f a < f x then x else a) y (List.mem_cons_of_mem _ h2)

/-- Python `max` keeps the first maximal element: the list splits around
the fold's result, with every element strictly smaller before it. -/
theorem pyMaxFold_split {α : Type} (f : α → ℚ) (l : List α) (a : α) :
    ∃ l₁ l₂, a :: l = l₁ ++ pyMaxFold f a l :: l₂ ∧
      ∀ y ∈ l₁, f y < f (pyMaxFold f a l) := by
  induction l generalizing a with
  | nil => exact ⟨[], [], rfl, by simp⟩
  | cons x xs ih =>
    have hfold : pyMaxFold f a (x :: xs) = pyMaxFold f (if f a < f x then x else a) xs := rfl
    obtain ⟨l₁, l₂, heq, hlt⟩ := ih (if f a < f x then x else a)
    by_cases hax : f a < f x
    · rw [if_pos hax] at heq hlt hfold
      cases l₁ with
      | nil =>
        simp only [List.nil_append] at heq
        have hhead : pyMaxFold f x xs = x := ((List.cons_eq_cons.1 heq).1).symm
        have htail : xs = l₂ := (List.cons_eq_cons.1 heq).2
        refine ⟨[a], l₂, ?_, ?_⟩
        · rw [hfold, hhead, ← htail]; rfl
        · intro y hy
          rcases List.mem_cons.1 hy with h1 | h1
          · rw [h1, hfold, hhead]; exact hax
          · simp at h1
      | cons z t =>
        rw [List.cons_append] at heq
        have hz : x = z := (List.cons_eq_cons.1 heq).1
        have hxs : xs = t ++ pyMaxFold f x xs :: l₂ := (List.cons_eq_cons.1 heq).2
        refine ⟨a :: z :: t, l₂, ?_, ?_⟩
        · rw [hfold, List.cons_append, List.cons_append, ← hz, ← hxs]
        · intro y hy
          have hxlt : f x < f (pyMaxFold f x xs) := by
            have h0 := hlt z (List.mem_cons_self z t)
            rw [← hz] at h0
            exact h0
          rcases List.mem_cons.1 hy with h1 | h1
          · rw [h1, hfold]; exact lt_trans hax hxlt
          · rw [hfold]; exact hlt y h1
    · rw [if_neg hax] at heq hlt hfold
      cases l₁ with
      | nil =>
        simp only [List.nil_append] at heq
        have hhead : pyMaxFold f a xs = a := ((List.cons_eq_cons.1 heq).1).symm
        have htail : xs = l₂ := (List.cons_eq_cons.1 heq).2
        refine ⟨[], x :: xs, ?_, by simp⟩
        rw [List.nil_append, hfold, hhead]
      | cons z t =>
        rw [List.cons_append] at heq
        have hz : a = z := (List.cons_eq_cons.1 heq).1
        have hxs : xs = t ++ pyMaxFold f a xs :: l₂ := (List.cons_eq_cons.1 heq).2
        refine ⟨a :: x :: t, l₂, ?_, ?_⟩
        · rw [hfold, List.cons_append, List.cons_append, ← hxs]
        · intro y hy
          have halt : f a < f (pyMaxFold f a xs) := by
            have h0 := hlt z (List.mem_cons_self z t)
            rw [← hz] at h0
            exact h0
          rcases List.mem_cons.1 hy with h1 | h1
          · rw [h1, hfold]; exact halt
          · rcases List.mem_cons.1 h1 with h2 | h2
            · rw [h2, hfold]; exact lt_of_le_of_lt (not_lt.1 hax) halt
            · rw [hfold]; exact hlt y (by rw [← hz]; exact List.mem_cons_of_mem a h2)

/-- Parsing a printed digit returns its value. -/
theorem digitVal_digitChar (d : ℕ) (h : d < 10) : digitVal (digitChar d) = some d := by
  interval_cases d <;> decide

/-- Every digit character printed is the digit character of some value
below ten. -/
theorem digitChar_lt10 (n : ℕ) : ∃ d, d < 10 ∧ digitChar n = digitChar d := by
  by_cases h : n < 10
  · exact ⟨n, h, rfl⟩
  · have h9 : digitChar n = '9' := by
      unfold digitChar
      split_ifs <;> first | omega | rfl
    exact ⟨9, by norm_num, h9.trans rfl⟩

/-- Every character of a printed natural number is some digit character. -/
theorem natToDigits_all (fuel n : ℕ) :
    ∀ c ∈ natToDigits fuel n, ∃ d, d < 10 ∧ c = digitChar d := by
  induction fuel generalizing n with
  | zero =>
    intro c hc
    simp only [natToDigits, List.mem_singleton] at hc
    obtain ⟨d, hd, hdn⟩ := digitChar_lt10 n
    exact ⟨d, hd, by rw [hc, hdn]⟩
  | succ fuel ih =>
    intro c hc
    unfold natToDigits at hc
    split_ifs at hc with h
    · simp only [List.mem_singleton] at hc
      exact ⟨n, h, hc⟩
    · rcases List.mem_append.1 hc with h1 | h1
      · exact ih (n / 10) c h1
      · simp only [List.mem_singleton] at h1
        exact ⟨n % 10, Nat.mod_lt n (by norm_num), h1⟩

/-- A printed natural number has at least one character. -/
theorem natToDigits_ne_nil (fuel n : ℕ) : natToDigits fuel n ≠ [] := by
  cases fuel with
  | zero => simp [natToDigits]
  | succ fuel =>
    unfold natToDigits
    split_ifs
    · simp
    · simp

/-- Digit parsing distributes over list append. -/
theorem parseDigitsAcc_append (acc : ℕ) (xs ys : List Char) :
    parseDigitsAcc acc (xs ++ ys) =
      match parseDigitsAcc acc xs with
      | none => none
      | some m => parseDigitsAcc m ys := by
  induction xs generalizing acc with
  | nil => rfl
  | cons c cs ih =>
    rw [List.cons_append]
    show (match digitVal c with
      | none => none
      | some d => parseDigitsAcc (10 * acc + d) (cs ++ ys)) = _
    cases h : digitVal c with
    | none => simp [parseDigitsAcc, h]
    | some d => simp only [parseDigitsAcc, h]; exact ih (10 * acc + d)

/-- Parsing the printed digits of `n` from accumulator `acc` yields
`acc` shifted past those digits plus `n`. -/
theorem parseDigitsAcc_natToDigits (fuel : ℕ) :
    ∀ n acc, n ≤ fuel →
      parseDigitsAcc acc (natToDigits fuel n) =
        some (acc * 10 ^ (natToDigits fuel n).length + n) := by
  induction fuel with
  | zero =>
    intro n acc h
    have hn : n = 0 := Nat.le_zero.1 h
    subst hn
    show parseDigitsAcc acc [digitChar 0] = some (acc * 10 ^ (1 : ℕ) + 0)
    show (match digitVal (digitChar 0) with
      | none => none
      | some d => parseDigitsAcc (10 * acc + d) []) = _
    rw [digitVal_digitChar 0 (by norm_num)]
    show some (10 * acc + 0) = some (acc * 10 ^ (1 : ℕ) + 0)
    congr 1
    rw [pow_one]
    omega
  | succ fuel ih =>
    intro n acc h
    by_cases h10 : n < 10
    · show parseDigitsAcc acc (if n < 10 then [digitChar n]
        else natToDigits fuel (n / 10) ++ [digitChar (n % 10)]) = _
      rw [if_pos h10]
      show (match digitVal (digitChar n) with
        | none => none
        | some d => parseDigitsAcc (10 * acc + d) []) = _
      rw [digitVal_digitChar n h10]
      show some (10 * acc + n) =
        some (acc * 10 ^ ((if n < 10 then [digitChar n]
          else natToDigits fuel (n / 10) ++ [digitChar (n % 10)])).length + n)
      rw [if_pos h10]
      congr 1
      show 10 * acc + n = acc * 10 ^ (1 : ℕ) + n
      rw [pow_one]
      omega
    · have hdiv : n / 10 ≤ fuel := by
        have := Nat.div_lt_self (by omega : 0 < n) (by norm_num : (1 : ℕ) < 10)
        omega
      show parseDigitsAcc acc (if n < 10 then [digitChar n]
        else natToDigits fuel (n / 10) ++ [digitChar (n % 10)]) = _
      rw [if_neg h10, parseDigitsAcc_append, ih (n / 10) acc hdiv]
      show parseDigitsAcc (acc * 10 ^ (natToDigits fuel (n / 10)).length + n / 10)
          [digitChar (n % 10)] = _
      show (match digitVal (digitChar (n % 10)) with
        | none => none
        | some d =>
          parseDigitsAcc
            (10 * (acc * 10 ^ (natToDigits fuel (n / 10)).length + n / 10) + d) []) = _
      rw [digitVal_digitChar (n % 10) (Nat.mod_lt n (by norm_num))]
      show some (10 * (acc * 10 ^ (natToDigits fuel (n / 10)).length + n / 10) + n % 10) =
        some (acc * 10 ^ ((if n < 10 then [digitChar n]
          else natToDigits fuel (n / 10) ++ [digitChar (n % 10)])).length + n)
      rw [if_neg h10]
      congr 1
      rw [List.length_append, List.length_singleton, pow_succ, ← mul_assoc]
      generalize acc * 10 ^ (natToDigits fuel (n / 10)).length = B
      omega

/-- Printed natural numbers parse back through Python `int()`. -/
theorem pyInt_natStr (k : ℕ) : pyInt (natStr k) = some (k : ℤ) := by
  unfold pyInt natStr
  rw [data_asString]
  cases hl : natToDigits k k with
  | nil => exact absurd hl (natToDigits_ne_nil k k)
  | cons c cs =>
    obtain ⟨d, hd, hc⟩ := natToDigits_all k k c (hl ▸ List.mem_cons_self c cs)
    have h1 : (c == '-') = false := by
      subst hc; interval_cases d <;> decide
    have h2 : (c == '+') = false := by
      subst hc; interval_cases d <;> decide
    simp only [h1, h2, Bool.false_eq_true, if_false]
    rw [← hl, parseDigitsAcc_natToDigits k k 0 (le_refl k)]
    simp

/-- Printed digit characters are never the underscore. -/
theorem digitChar_ne_underscore (n : ℕ) : digitChar n ≠ '_' := by
  obtain ⟨d, hd, h⟩ := digitChar_lt10 n
  rw [h]
  interval_cases d <;> decide

/-- A printed natural number contains no underscore. -/
theorem natToDigits_no_underscore (fuel n : ℕ) : '_' ∉ natToDigits fuel n := by
  intro hmem
  obtain ⟨d, _, hc⟩ := natToDigits_all fuel n '_' hmem
  exact digitChar_ne_underscore d hc.symm

/-- Splitting on a character that does not occur finds nothing: the scan
runs to the end accumulating everything. -/
theorem splitGo_not_mem (c0 : Char) (s : List Char) (hc : c0 ∉ s) :
    ∀ fuel, s.length < fuel → ∀ acc,
      pySplitGo [c0] fuel s acc = [acc.reverse ++ s] := by
  induction s with
  | nil =>
    intro fuel hf acc
    cases fuel with
    | zero => omega
    | succ f => simp [pySplitGo]
  | cons c cs ih =>
    intro fuel hf acc
    cases fuel with
    | zero => simp at hf
    | succ f =>
      have hne : (c0 == c) = false :=
        beq_eq_false_iff_ne.2 (fun h => hc (h ▸ List.mem_cons_self c cs))
      show (if !(([c0] : List Char).isEmpty) && leadsWith [c0] (c :: cs) then
          acc.reverse :: pySplitGo [c0] f (List.drop ([c0].length - 1) cs) []
        else pySplitGo [c0] f cs (c :: acc)) = _
      rw [show leadsWith [c0] (c :: cs) = (c0 == c && leadsWith [] cs) from rfl]
      rw [show leadsWith [] cs = true from by cases cs <;> rfl]
      rw [hne]
      simp only [Bool.false_and, Bool.and_false, List.isEmpty_cons, Bool.not_false,
        Bool.true_and, Bool.false_eq_true, if_false]
      rw [ih (fun h => hc (List.mem_cons_of_mem c h)) f (by simpa using hf) (c :: acc)]
      simp

/-- Splitting at the single separator occurrence cuts the list in two. -/
theorem splitGo_found (c0 : Char) (xs ys : List Char) (hx : c0 ∉ xs) (hy : c0 ∉ ys) :
    ∀ fuel, (xs ++ c0 :: ys).length < fuel → ∀ acc,
      pySplitGo [c0] fuel (xs ++ c0 :: ys) acc = [acc.reverse ++ xs, ys] := by
  induction xs with
  | nil =>
    intro fuel hf acc
    simp only [List.nil_append] at hf ⊢
    cases fuel with
    | zero => simp at hf
    | succ f =>
      show (if !(([c0] : List Char).isEmpty) && leadsWith [c0] (c0 :: ys) then
          acc.reverse :: pySplitGo [c0] f (List.drop ([c0].length - 1) ys) []
        else pySplitGo [c0] f ys (c0 :: acc)) = _
      rw [show leadsWith [c0] (c0 :: ys) = (c0 == c0 && leadsWith [] ys) from rfl]
      rw [show leadsWith [] ys = true from by cases ys <;> rfl]
      simp only [beq_self_eq_true, Bool.and_true, List.isEmpty_cons, Bool.not_false,
        Bool.true_and, if_true]
      rw [show ([c0].length - 1) = 0 from rfl, List.drop_zero]
      rw [splitGo_not_mem c0 ys hy f (by simp at hf; omega) []]
      simp
  | cons x xs2 ih =>
    intro fuel hf acc
    cases fuel with
    | zero => simp at hf
    | succ f =>
      have hne : (c0 == x) = false :=
        beq_eq_false_iff_ne.2 (fun h => hx (h ▸ List.mem_cons_self x xs2))
      rw [List.cons_append]
      show (if !(([c0] : List Char).isEmpty) && leadsWith [c0] (x :: (xs2 ++ c0 :: ys)) then
          acc.reverse :: pySplitGo [c0] f (List.drop ([c0].length - 1) (xs2 ++ c0 :: ys)) []
        else pySplitGo [c0] f (xs2 ++ c0 :: ys) (x :: acc)) = _
      rw [show leadsWith [c0] (x :: (xs2 ++ c0 :: ys)) =
        (c0 == x && leadsWith [] (xs2 ++ c0 :: ys)) from rfl]
      rw [hne]
      simp only [Bool.false_and, Bool.and_false, List.isEmpty_cons, Bool.not_false,
        Bool.true_and, Bool.false_eq_true, if_false]
      rw [ih (fun h => hx (List.mem_cons_of_mem x h)) f
        (by simp at hf ⊢; omega) (x :: acc)]
      simp

/-- The key built for branch `i` splits on `"_"` into `"branch"` and the
printed index. -/
theorem pySplit_branchKey (k : ℕ) : pySplit (branchKey k) ("_") = ["branch", natStr k] := by
  unfold pySplit branchKey
  rw [data_append_eq]
  rw [show ("branch_").data = ['b', 'r', 'a', 'n', 'c', 'h'] ++ ['_'] from rfl]
  rw [show (natStr k).data = natToDigits k k from rfl]
  rw [List.append_assoc, List.singleton_append]
  rw [show ("_" : String).data = ['_'] from rfl]
  rw [splitGo_found '_' ['b', 'r', 'a', 'n', 'c', 'h'] (natToDigits k k) (by decide)
    (natToDigits_no_underscore k k) _ (Nat.lt_succ_self _) []]
  rfl

/-- One key-value pair per score value. -/
theorem mkScoresFrom_length (i : ℕ) (qs : List ℚ) :
    (mkScoresFrom i qs).length = qs.length := by
  induction qs generalizing i with
  | nil => rfl
  | cons q qs ih => simp [mkScoresFrom, ih]

/-- The pair for position `j` is a member of the score list. -/
theorem mkScoresFrom_mem (qs : List ℚ) (i j : ℕ) (hj : j < qs.length) :
    (branchKey (i + j), qs.get ⟨j, hj⟩) ∈ mkScoresFrom i qs := by
  induction qs generalizing i j with
  | nil => simp at hj
  | cons q qs ih =>
    cases j with
    | zero => simp [mkScoresFrom]
    | succ j2 =>
      have hj2 : j2 < qs.length := by simpa using hj
      have hmem := ih (i + 1) j2 hj2
      have harith : i + (j2 + 1) = i + 1 + j2 := by omega
      rw [harith]
      exact List.mem_cons_of_mem _ hmem

/-- Decomposing the score list around one element identifies that element
and everything before it positionally. -/
theorem mkScoresFrom_decomp (l₁ : List (String × ℚ)) :
    ∀ (qs : List ℚ) (i : ℕ) (l₂ : List (String × ℚ)) (x : String × ℚ),
      mkScoresFrom i qs = l₁ ++ x :: l₂ →
      ∃ hk : l₁.length < qs.length,
        x = (branchKey (i + l₁.length), qs.get ⟨l₁.length, hk⟩) ∧
        ∀ j (hj : j < l₁.length),
          l₁.get ⟨j, hj⟩ = (branchKey (i + j), qs.get ⟨j, Nat.lt_trans hj hk⟩) := by
  induction l₁ with
  | nil =>
    intro qs i l₂ x h
    cases qs with
    | nil => simp [mkScoresFrom] at h
    | cons q qs2 =>
      simp only [mkScoresFrom, List.nil_append] at h
      have hx : x = (branchKey i, q) := ((List.cons_eq_cons.1 h).1).symm
      refine ⟨by simp, ?_, ?_⟩
      · simpa using hx
      · intro j hj
        simp at hj
  | cons z t ih =>
    intro qs i l₂ x h
    cases qs with
    | nil => simp [mkScoresFrom] at h
    | cons q qs2 =>
      rw [List.cons_append] at h
      simp only [mkScoresFrom] at h
      have hz : (branchKey i, q) = z := (List.cons_eq_cons.1 h).1
      have hrec : mkScoresFrom (i + 1) qs2 = t ++ x :: l₂ := (List.cons_eq_cons.1 h).2
      obtain ⟨hk, hx, hall⟩ := ih qs2 (i + 1) l₂ x hrec
      have hklt : (z :: t).length < (q :: qs2).length := by
        simp only [List.length_cons]
        omega
      refine ⟨hklt, ?_, ?_⟩
      · have harith : i + (z :: t).length = i + 1 + t.length := by simp; omega
        rw [harith]
        exact hx
      · intro j hj
        cases j with
        | zero =>
          show z = (branchKey (i + 0), q)
          rw [← hz]
          simp
        | succ j2 =>
          have hj2 : j2 < t.length := by simpa using hj
          have := hall j2 hj2
          show t.get ⟨j2, hj2⟩ = (branchKey (i + (j2 + 1)), qs2.get ⟨j2, _⟩)
          rw [this]
          have harith : i + 1 + j2 = i + (j2 + 1) := by omega
          rw [harith]

/-- Characterization of `optimize_response` on a `branch_i`-keyed score
list: it returns the thought at the first score-maximal index. -/
theorem optimize_mkScores_spec (thoughts : List String) (qs : List ℚ)
    (hlen : qs.length = thoughts.length) (hne : 0 < qs.length) :
    ∃ (k : ℕ) (hk1 : k < qs.length) (hk2 : k < thoughts.length),
      optimize_response thoughts (mkScoresFrom 0 qs) = .ok (thoughts.get ⟨k, hk2⟩) ∧
      (∀ j (hj : j < qs.length), qs.get ⟨j, hj⟩ ≤ qs.get ⟨k, hk1⟩) ∧
      (∀ j (hj : j < k), qs.get ⟨j, Nat.lt_trans hj hk1⟩ < qs.get ⟨k, hk1⟩) := by
  cases qs with
  | nil => simp at hne
  | cons q qs2 =>
    obtain ⟨l₁, l₂, heq, hlt⟩ :=
      pyMaxFold_split (fun x : String × ℚ => x.2) (mkScoresFrom 1 qs2) (branchKey 0, q)
    have hdec : mkScoresFrom 0 (q :: qs2) = l₁ ++
        pyMaxFold (fun x : String × ℚ => x.2) (branchKey 0, q) (mkScoresFrom 1 qs2) :: l₂ := by
      rw [show mkScoresFrom 0 (q :: qs2) =
        (branchKey 0, q) :: mkScoresFrom 1 qs2 from rfl]
      exact heq
    obtain ⟨hk, hx, hall⟩ := mkScoresFrom_decomp l₁ (q :: qs2) 0 l₂ _ hdec
    have hk2 : l₁.length < thoughts.length := hlen ▸ hk
    refine ⟨l₁.length, hk, hk2, ?_, ?_, ?_⟩
    · show optimize_response thoughts ((branchKey 0, q) :: mkScoresFrom 1 qs2) = _
      show (match (pySplit (pyMaxFold (fun x : String × ℚ => x.2) (branchKey 0, q)
            (mkScoresFrom 1 qs2)).1 ("_")).get? 1 with
        | none => Except.error ("IndexError: list index out of range")
        | some ds =>
          match pyInt ds with
          | none => Except.error ("ValueError: invalid literal for int()")
          | some i =>
            match pyIndexList thoughts i with
            | none => Except.error ("IndexError: list index out of range")
            | some t => Except.ok t) = _
      rw [hx]
      simp only [Nat.zero_add]
      rw [pySplit_branchKey]
      simp only [List.get?_cons_succ, List.get?_cons_zero]
      rw [pyInt_natStr]
      show (match pyIndexList thoughts ((l₁.length : ℕ) : ℤ) with
        | none => Except.error ("IndexError: list index out of range")
        | some t => Except.ok t) = _
      unfold pyIndexList
      rw [if_pos (Int.natCast_nonneg l₁.length)]
      rw [Int.toNat_natCast]
      rw [List.get?_eq_get hk2]
    · intro j hj
      have hmem := mkScoresFrom_mem (q :: qs2) 0 j hj
      rw [show mkScoresFrom 0 (q :: qs2) =
        (branchKey 0, q) :: mkScoresFrom 1 qs2 from rfl] at hmem
      have hle := pyMaxFold_le (fun x : String × ℚ => x.2) (mkScoresFrom 1 qs2)
        (branchKey 0, q) _ hmem
      rw [hx] at hle
      simpa using hle
    · intro j hj
      have hget := hall j hj
      have hmem : l₁.get ⟨j, hj⟩ ∈ l₁ := List.get_mem l₁ _ hj
      have hltj := hlt _ hmem
      rw [hget, hx] at hltj
      simpa using hltj

/-- C6: on every `branch_i`-keyed score list over a non-empty thought
list, `optimize_response` returns the text of a branch with maximum
consistency score, and on ties the branch with the lowest index wins
(every strictly earlier branch scores strictly lower); in particular on
scores 0.4, 0.9, 0.9 it deterministically returns branch 1. -/
theorem C6_selector_first_max (thoughts : List String) (qs : List ℚ)
    (hlen : qs.length = thoughts.length) (hne : 0 < qs.length) :
    (∃ (k : ℕ) (hk1 : k < qs.length) (hk2 : k < thoughts.length),
      optimize_response thoughts (mkScoresFrom 0 qs) = .ok (thoughts.get ⟨k, hk2⟩) ∧
      (∀ j (hj : j < qs.length), qs.get ⟨j, hj⟩ ≤ qs.get ⟨k, hk1⟩) ∧
      (∀ j (hj : j < k), qs.get ⟨j, Nat.lt_trans hj hk1⟩ < qs.get ⟨k, hk1⟩)) ∧
    optimize_response ["a", "b", "c"] (mkScoresFrom 0 [2 / 5, 9 / 10, 9 / 10]) =
      .ok ("b") :=
  ⟨optimize_mkScores_spec thoughts qs hlen hne, by
    norm_num +decide [optimize_response, mkScoresFrom, pyMaxFold, branchKey, natStr,
      natToDigits, digitChar, pySplit, pySplitGo, leadsWith, pyInt, parseDigitsAcc,
      digitVal, pyIndexList, data_asString]⟩

/-- C6 (witness): the selector statement at the concrete scores
0.4, 0.9, 0.9, where the returned text is branch 1's. -/
theorem C6_witness :
    ∃ (k : ℕ) (hk1 : k < ([2 / 5, 9 / 10, 9 / 10] : List ℚ).length)
      (hk2 : k < (["a", "b", "c"] : List String).length),
      optimize_response ["a", "b", "c"] (mkScoresFrom 0 [2 / 5, 9 / 10, 9 / 10]) =
        .ok ((["a", "b", "c"] : List String).get ⟨k, hk2⟩) ∧
      (∀ j (hj : j < ([2 / 5, 9 / 10, 9 / 10] : List ℚ).length),
        ([2 / 5, 9 / 10, 9 / 10] : List ℚ).get ⟨j, hj⟩ ≤
          ([2 / 5, 9 / 10, 9 / 10] : List ℚ).get ⟨k, hk1⟩) ∧
      (∀ j (hj : j < k),
        ([2 / 5, 9 / 10, 9 / 10] : List ℚ).get ⟨j, Nat.lt_trans hj hk1⟩ <
          ([2 / 5, 9 / 10, 9 / 10] : List ℚ).get ⟨k, hk1⟩) :=
  (C6_selector_first_max ["a", "b", "c"] [2 / 5, 9 / 10, 9 / 10] rfl (by norm_num)).1

/-- C10: for every non-empty thought list and every score mapping whose
keys are exactly `branch_i` for the indices of the thoughts, the
selector's returned text is an element of the input thought list. -/
theorem C10_selection_is_a_thought (thoughts : List String) (qs : List ℚ)
    (hlen : qs.length = thoughts.length) (hne : thoughts ≠ []) :
    ∃ r, optimize_response thoughts (mkScoresFrom 0 qs) = .ok r ∧ r ∈ thoughts := by
  have hpos : 0 < qs.length := by
    rw [hlen]
    exact List.length_pos.2 hne
  obtain ⟨k, hk1, hk2, hok, _, _⟩ := optimize_mkScores_spec thoughts qs hlen hpos
  exact ⟨thoughts.get ⟨k, hk2⟩, hok, List.get_mem thoughts _ hk2⟩

/-- C10 (witness): the membership statement at a concrete two-thought
input. -/
theorem C10_witness :
    ∃ r, optimize_response ["x", "y"] (mkScoresFrom 0 [1 / 2, 1 / 3]) = .ok r ∧
      r ∈ (["x", "y"] : List String) :=
  C10_selection_is_a_thought ["x", "y"] [1 / 2, 1 / 3] rfl (by simp)
